import Mathlib

/-!
# Verification of the Clue game deduction engine

Shallow embedding of the repository's core inference engine:

* `PlayerCardTracker` (src/player_card_tracker.py) — the per-(player, card)
  hand-probability matrix with known-card and cannot-have bookkeeping;
* `EnvelopeProbabilityEngine` (src/engines/envelope_probability_engine.py) —
  the three per-category solution distributions;
* `RuleBasedInferenceEngine` (src/engines/rule_based_inference_engine.py) —
  the refutation-count heuristic;
* `ClueGameManager` (src/clue_game_manager.py) — the orchestrator.

Python floats are modelled by exact rationals (`ℚ`); every constant that
appears in the source (`0.5`, `1.5`, `0.05`, `1.0`, hand size `3`) is exactly
representable in binary floating point, so the rational model agrees with the
source on the settings the theorems below exercise.  Python dictionaries keyed
by the fixed player / card lists are modelled as total functions together with
the key lists; in-place mutation becomes functional update.  A Python loop
that writes each dictionary key at most once is embedded as the equivalent
pointwise update.  Calls that can raise (`list.index` on a missing element,
invoking the missing `increase_prob` attribute) return `Option`, with `none`
for the raised exception.
-/

/-- Modelled from the spec: `clue_constants.py` is imported by every source
file but is not part of `src/`.  The spec fixes a 21-card deck split into the
three categories (6 suspects, 6 weapons, 9 rooms; §3, §4.1 "21 cards total")
and its scenarios name `Scarlett`, `Plum`, `Green` as suspects, `Rope`,
`Knife`, `Candlestick` as weapons and `Kitchen`, `Library`, `Study` as rooms. -/
def SUSPECTS : List String :=
  ["Scarlett", "Plum", "Green", "Mustard", "Peacock", "White"]

/-- Modelled from the spec: the weapon category of `clue_constants.py`. -/
def WEAPONS : List String :=
  ["Rope", "Knife", "Candlestick", "Revolver", "Lead Pipe", "Wrench"]

/-- Modelled from the spec: the room category of `clue_constants.py`. -/
def ROOMS : List String :=
  ["Kitchen", "Library", "Study", "Ballroom", "Conservatory", "Billiard Room",
   "Dining Room", "Hall", "Lounge"]

/-- `SUSPECTS + WEAPONS + ROOMS`, the full deck (21 cards). -/
def ALL_CARDS : List String := SUSPECTS ++ WEAPONS ++ ROOMS

/-- Python truthiness of an `Optional[str]`: `None` and the empty string are
falsy (`if responder:` / `if shown_card:` in the source). -/
def truthy : Option String → Bool
  | none => false
  | some s => s != ""

/-- `set.add`: insert a string into a set modelled as a duplicate-free list. -/
def insertS (x : String) (l : List String) : List String :=
  if x ∈ l then l else x :: l

/-- Sum of `f` over a key list (a Python `sum(...)` over dictionary entries). -/
def sumOver (l : List String) (f : String → ℚ) : ℚ := (l.map f).sum

/-- Python `max` over the values of a non-empty dictionary. -/
def pymax : List ℚ → ℚ
  | [] => 0
  | x :: xs => xs.foldl max x

/-! ## PlayerCardTracker (src/player_card_tracker.py) -/

/-- State of `PlayerCardTracker`.  `playerCardProbs` is the
(player, card) → probability dictionary as a total function; `knownCards` and
`cannotHave` are the per-player sets.  The constants `INCREASE_FACTOR = 1.5`
and `DECREASE_FACTOR = 0.5` are fixed in `__init__` and inlined below
(`DECREASE_FACTOR` is never used by the source). -/
structure PlayerCardTracker where
  players : List String
  cards : List String
  handSizes : String → ℚ
  playerCardProbs : String → String → ℚ
  knownCards : String → List String
  cannotHave : String → List String

/-- `PlayerCardTracker.__init__` (lines 6–33): uniform prior
`1.0 / len(players)` for every (player, card), empty known / cannot-have
sets. -/
def mkTracker (players cards : List String) (handSizes : String → ℚ) :
    PlayerCardTracker :=
  { players := players
    cards := cards
    handSizes := handSizes
    playerCardProbs := fun _ _ => 1 / (players.length : ℚ)
    knownCards := fun _ => []
    cannotHave := fun _ => [] }

/-- `sum(self.player_card_probs[player][card] for player in self.players)`
(line 42): the column total of one card across all players. -/
def colTotal (t : PlayerCardTracker) (card : String) : ℚ :=
  sumOver t.players (fun p => t.playerCardProbs p card)

/-- First phase of `_normalize_probabilities` (lines 41–45): for each card,
divide every player's entry by the column total when that total is positive.
Each loop iteration writes a distinct (player, card) dictionary cell and the
column totals are read before the column is written, so the loop equals this
pointwise update. -/
def normalizeCards (t : PlayerCardTracker) : PlayerCardTracker :=
  { t with playerCardProbs := fun p c =>
      if p ∈ t.players ∧ c ∈ t.cards ∧ 0 < colTotal t c then
        t.playerCardProbs p c / colTotal t c
      else t.playerCardProbs p c }

/-- `sum(self.player_card_probs[player].values())` (line 49): the row total
of one player across all cards (the dictionary's keys are exactly
`self.cards`). -/
def rowTotal (t : PlayerCardTracker) (p : String) : ℚ :=
  sumOver t.cards (fun c => t.playerCardProbs p c)

/-- Second phase of `_normalize_probabilities` (lines 48–55): when a player's
row total exceeds their hand size, scale every non-known entry of that row by
`hand_size / total`.  Known cards are exempt (line 54). -/
def normalizeHandSizes (t : PlayerCardTracker) : PlayerCardTracker :=
  { t with playerCardProbs := fun p c =>
      if p ∈ t.players ∧ c ∈ t.cards ∧ c ∉ t.knownCards p ∧
          t.handSizes p < rowTotal t p then
        t.playerCardProbs p c * (t.handSizes p / rowTotal t p)
      else t.playerCardProbs p c }

/-- `_normalize_probabilities` (lines 35–55): card columns first, then hand
size capacity. -/
def normalizeProbabilities (t : PlayerCardTracker) : PlayerCardTracker :=
  normalizeHandSizes (normalizeCards t)

/-- The shared pin loop of `update_from_suggestion` case 1 (lines 73–81) and
`mark_known_card` (lines 143–150): the holder's entry for the card becomes
1.0 and the card joins their known set; every other player's entry becomes
0.0 and the card joins their cannot-have set.  The loop runs over
`self.players` and writes each player's cell once. -/
def pinCard (t : PlayerCardTracker) (holder card : String) :
    PlayerCardTracker :=
  { t with
    playerCardProbs := fun p c =>
      if p ∈ t.players ∧ c = card then (if p = holder then 1 else 0)
      else t.playerCardProbs p c
    knownCards := fun p =>
      if p ∈ t.players ∧ p = holder then insertS card (t.knownCards p)
      else t.knownCards p
    cannotHave := fun p =>
      if p ∈ t.players ∧ p ≠ holder then insertS card (t.cannotHave p)
      else t.cannotHave p }

/-- `mark_known_card` (lines 141–152): pin, then renormalize. -/
def markKnownCard (t : PlayerCardTracker) (player card : String) :
    PlayerCardTracker :=
  normalizeProbabilities (pinCard t player card)

/-- Lines 86–94 of `update_from_suggestion`: the slice of `players_in_order`
strictly between the suggester and the responder.  When the responder sits
before the suggester the responder's index is shifted by the list length
(line 91), but the Python slice `players_in_order[suggester_idx+1 :
responder_idx]` clamps at the end of the list, so the wrapped head segment is
never produced. -/
def passedPlayers (playersInOrder : List String)
    (suggester responder : String) : List String :=
  let sIdx := playersInOrder.indexOf suggester
  let rIdx := playersInOrder.indexOf responder
  let rIdx' := if rIdx < sIdx then rIdx + playersInOrder.length else rIdx
  (playersInOrder.drop (sIdx + 1)).take (rIdx' - (sIdx + 1))

/-- Lines 95–98: every passed player's entries for the suggested cards become
0.0 and the cards join their cannot-have sets. -/
def zeroPassed (t : PlayerCardTracker) (passed suggested : List String) :
    PlayerCardTracker :=
  { t with
    playerCardProbs := fun p c =>
      if p ∈ passed ∧ c ∈ suggested then 0 else t.playerCardProbs p c
    cannotHave := fun p =>
      if p ∈ passed then suggested.foldl (fun s c => insertS c s) (t.cannotHave p)
      else t.cannotHave p }

/-- Lines 102–104: the responder's entry for each suggested card not in their
known set is multiplied by `INCREASE_FACTOR = 1.5`; a card occurring `k`
times in the suggested list is multiplied `k` times. -/
def boostResponder (t : PlayerCardTracker) (responder : String)
    (suggested : List String) : PlayerCardTracker :=
  { t with playerCardProbs := fun p c =>
      if p = responder ∧ c ∉ t.knownCards responder then
        t.playerCardProbs p c * (3 / 2 : ℚ) ^ (suggested.count c)
      else t.playerCardProbs p c }

/-- Lines 110–114 (case 3, no responder): every player's entry for each
suggested card not in that player's known set becomes 0.0 and the card joins
their cannot-have set. -/
def zeroAllUnknown (t : PlayerCardTracker) (suggested : List String) :
    PlayerCardTracker :=
  { t with
    playerCardProbs := fun p c =>
      if p ∈ t.players ∧ c ∈ suggested ∧ c ∉ t.knownCards p then 0
      else t.playerCardProbs p c
    cannotHave := fun p =>
      if p ∈ t.players then
        suggested.foldl
          (fun s c => if c ∈ t.knownCards p then s else insertS c s)
          (t.cannotHave p)
      else t.cannotHave p }

/-- `update_from_suggestion` (lines 57–117).  Case 2 calls
`players_in_order.index` on the suggester and the responder; a missing name
raises `ValueError`, modelled by `none`. -/
def updateFromSuggestion (t : PlayerCardTracker) (suggestedCards : List String)
    (suggestingPlayer : String) (responder shownCard : Option String)
    (playersInOrder : List String) : Option PlayerCardTracker :=
  if truthy responder && truthy shownCard then
    some (normalizeProbabilities (pinCard t (responder.getD "") (shownCard.getD "")))
  else if truthy responder then
    if suggestingPlayer ∈ playersInOrder ∧ (responder.getD "") ∈ playersInOrder then
      some (normalizeProbabilities
        (boostResponder
          (zeroPassed t
            (passedPlayers playersInOrder suggestingPlayer (responder.getD ""))
            suggestedCards)
          (responder.getD "") suggestedCards))
    else none
  else
    some (normalizeProbabilities (zeroAllUnknown t suggestedCards))

/-- `get_envelope_probabilities` (lines 123–135): `max(0, 1 - column total)`
per card. -/
def envelopeProbability (t : PlayerCardTracker) (card : String) : ℚ :=
  max 0 (1 - colTotal t card)

/-! ## EnvelopeProbabilityEngine (src/engines/envelope_probability_engine.py) -/

/-- State of `EnvelopeProbabilityEngine`: one distribution per category (a
dictionary keyed by that category's card list) plus the known-card set.  The
constants `DECREASE_FACTOR = 0.5` and `INCREASE_FACTOR = 2.0` are fixed in
`__init__`; the latter is only used by `_increase_probability`, which no code
calls. -/
structure EnvelopeProbabilityEngine where
  suspectProbs : String → ℚ
  weaponProbs : String → ℚ
  roomProbs : String → ℚ
  knownCards : List String

/-- `_initialize_category_probs` (lines 20–22): uniform `1.0 / len(cards)`. -/
def initCategoryProbs (cards : List String) : String → ℚ :=
  fun _ => 1 / (cards.length : ℚ)

/-- `EnvelopeProbabilityEngine.__init__` (lines 6–17). -/
def mkEnvelopeEngine : EnvelopeProbabilityEngine :=
  { suspectProbs := initCategoryProbs SUSPECTS
    weaponProbs := initCategoryProbs WEAPONS
    roomProbs := initCategoryProbs ROOMS
    knownCards := [] }

/-- `_update_known_card` (lines 61–88): add the card to the known set, zero
its probability, and redistribute `1 / len(remaining)` uniformly over the
category's cards not in the (updated) known set; skip redistribution when no
card remains. -/
def updateKnownCard (e : EnvelopeProbabilityEngine) (card : String) :
    EnvelopeProbabilityEngine :=
  let known' := insertS card e.knownCards
  if card ∈ SUSPECTS then
    let remaining := SUSPECTS.filter (fun c => c ∉ known')
    { e with knownCards := known'
             suspectProbs := fun c =>
               if c ∈ remaining then 1 / (remaining.length : ℚ)
               else if c = card then 0 else e.suspectProbs c }
  else if card ∈ WEAPONS then
    let remaining := WEAPONS.filter (fun c => c ∉ known')
    { e with knownCards := known'
             weaponProbs := fun c =>
               if c ∈ remaining then 1 / (remaining.length : ℚ)
               else if c = card then 0 else e.weaponProbs c }
  else if card ∈ ROOMS then
    let remaining := ROOMS.filter (fun c => c ∉ known')
    { e with knownCards := known'
             roomProbs := fun c =>
               if c ∈ remaining then 1 / (remaining.length : ℚ)
               else if c = card then 0 else e.roomProbs c }
  else { e with knownCards := known' }

/-- `_decrease_probability` (lines 91–97): multiply the card's entry in its
category by `DECREASE_FACTOR = 0.5`. -/
def decreaseProbability (e : EnvelopeProbabilityEngine) (card : String) :
    EnvelopeProbabilityEngine :=
  if card ∈ SUSPECTS then
    { e with suspectProbs := fun c =>
        if c = card then e.suspectProbs c * (1 / 2) else e.suspectProbs c }
  else if card ∈ WEAPONS then
    { e with weaponProbs := fun c =>
        if c = card then e.weaponProbs c * (1 / 2) else e.weaponProbs c }
  else if card ∈ ROOMS then
    { e with roomProbs := fun c =>
        if c = card then e.roomProbs c * (1 / 2) else e.roomProbs c }
  else e

/-- The one-hot loops of `update_probabilities` lines 41–53: the suggested
card's category is overwritten with 1.0 for that card and 0.0 for its
siblings. -/
def oneHotCategory (e : EnvelopeProbabilityEngine) (card : String) :
    EnvelopeProbabilityEngine :=
  if card ∈ SUSPECTS then
    { e with suspectProbs := fun c =>
        if c ∈ SUSPECTS then (if c = card then 1 else 0) else e.suspectProbs c }
  else if card ∈ WEAPONS then
    { e with weaponProbs := fun c =>
        if c ∈ WEAPONS then (if c = card then 1 else 0) else e.weaponProbs c }
  else if card ∈ ROOMS then
    { e with roomProbs := fun c =>
        if c ∈ ROOMS then (if c = card then 1 else 0) else e.roomProbs c }
  else e

/-- `sum(probs.values())` for one category. -/
def catSum (cards : List String) (f : String → ℚ) : ℚ := (cards.map f).sum

/-- `_normalize_category` (lines 109–113): divide each entry by the category
total when it is positive, otherwise leave the category untouched. -/
def normalizeCategory (cards : List String) (f : String → ℚ) : String → ℚ :=
  if 0 < catSum cards f then
    fun c => if c ∈ cards then f c / catSum cards f else f c
  else f

/-- The mutation phase of `update_probabilities` (lines 29–53): if a card
was shown, mark it known and demote the other suggested cards; if no one
refuted, force one-hot distributions; otherwise leave the distributions
unchanged. -/
def updateMutate (e : EnvelopeProbabilityEngine)
    (suggestedCards : List String) (responder shownCard : Option String) :
    EnvelopeProbabilityEngine :=
  if truthy responder && truthy shownCard then
    suggestedCards.foldl
      (fun acc c => if c ≠ shownCard.getD "" then decreaseProbability acc c else acc)
      (updateKnownCard e (shownCard.getD ""))
  else if !(truthy responder) then
    suggestedCards.foldl (fun acc c => oneHotCategory acc c) e
  else e

/-- `update_probabilities` (lines 25–58): classify the event, mutate, then
normalize all three categories. -/
def updateProbabilities (e : EnvelopeProbabilityEngine)
    (suggestedCards : List String) (responder shownCard : Option String) :
    EnvelopeProbabilityEngine :=
  { updateMutate e suggestedCards responder shownCard with
      suspectProbs := normalizeCategory SUSPECTS
        (updateMutate e suggestedCards responder shownCard).suspectProbs
      weaponProbs := normalizeCategory WEAPONS
        (updateMutate e suggestedCards responder shownCard).weaponProbs
      roomProbs := normalizeCategory ROOMS
        (updateMutate e suggestedCards responder shownCard).roomProbs }

/-- `is_solution_confident` (lines 132–136): in every category the maximum
entry strictly exceeds the threshold. -/
def isSolutionConfident (e : EnvelopeProbabilityEngine) (threshold : ℚ) :
    Bool :=
  decide (threshold < pymax (SUSPECTS.map e.suspectProbs)) &&
  decide (threshold < pymax (WEAPONS.map e.weaponProbs)) &&
  decide (threshold < pymax (ROOMS.map e.roomProbs))

/-! ## RuleBasedInferenceEngine (src/engines/rule_based_inference_engine.py) -/

/-- State of `RuleBasedInferenceEngine` (minus the tracker reference, which
is threaded explicitly).  `refutation_history` is a
`defaultdict(lambda: defaultdict(int))`; `histKeys` records which
(player, card) pairs have been touched, in insertion order, and `histCount`
their counts. -/
structure RuleBasedInferenceEngine where
  baseIncrease : ℚ
  growthFactor : ℚ
  histKeys : List (String × String)
  histCount : String → String → Nat

/-- `RuleBasedInferenceEngine.__init__` (lines 20–31); the manager constructs
it with the default `base_increase = 0.05` and `growth_factor = 1.5`. -/
def mkRuleEngine (baseIncrease growthFactor : ℚ) : RuleBasedInferenceEngine :=
  { baseIncrease := baseIncrease
    growthFactor := growthFactor
    histKeys := []
    histCount := fun _ _ => 0 }

/-- One `self.refutation_history[responder][card] += 1` step (line 48). -/
def recordOne (e : RuleBasedInferenceEngine) (p c : String) :
    RuleBasedInferenceEngine :=
  { e with
    histKeys := if (p, c) ∈ e.histKeys then e.histKeys else e.histKeys ++ [(p, c)]
    histCount := fun q d =>
      if q = p ∧ d = c then e.histCount q d + 1 else e.histCount q d }

/-- `record_suggestion` (lines 33–48): when a responder exists but the shown
card is unknown, increment the count for each suggested card.  The
`suggester` argument is accepted and ignored, as in the source. -/
def recordSuggestion (e : RuleBasedInferenceEngine) (_suggester : String)
    (suggestedCards : List String)
    (responder shownCard : Option String) : RuleBasedInferenceEngine :=
  if truthy responder && !(truthy shownCard) then
    suggestedCards.foldl (fun acc c => recordOne acc (responder.getD "") c) e
  else e

/-- Line 60 of `apply_inference`:
`increase = self.base_increase * (self.growth_factor ** (count - 1))` for the
current count of a (player, card) pair. -/
def increaseFor (e : RuleBasedInferenceEngine) (p c : String) : ℚ :=
  e.baseIncrease * e.growthFactor ^ (e.histCount p c - 1)

/-- The per-pair pushes `apply_inference` (lines 50–61) attempts: for every
recorded (player, card) pair, the computed increase destined for
`self.tracker.increase_prob(player, card, amount=increase)`. -/
def applyInferencePushes (e : RuleBasedInferenceEngine) :
    List (String × String × ℚ) :=
  e.histKeys.map (fun pc => (pc.1, pc.2, increaseFor e pc.1 pc.2))

/-! ## ClueGameManager (src/clue_game_manager.py) -/

/-- The `Suggestion` dataclass (lines 12–20), minus the wall-clock
`timestamp`, which no claim or computation reads. -/
structure Suggestion where
  suggester : String
  suspect : String
  weapon : String
  room : String
  responder : Option String
  shownCard : Option String

/-- State of `ClueGameManager`. -/
structure ClueGameManager where
  players : List String
  knownCards : String → List String
  cannotHave : String → List String
  suggestions : List Suggestion
  softBeliefs : String → String → ℚ
  playerCardTracker : PlayerCardTracker
  probabilityEngine : EnvelopeProbabilityEngine
  ruleEngine : RuleBasedInferenceEngine
  remainderCards : List String
  globalKnownCards : List String

/-- `ClueGameManager.__init__` (lines 26–53): if the first player is not
named `"You"` the constructor overwrites `players[0] = "You"` in place on the
caller's list; every per-player structure is then keyed by the resulting
list.  Hand sizes are all 3; soft beliefs start at 1.0 for every card.
`__init__` on an empty player list raises `IndexError` (`players[0]`),
modelled by `none`. -/
def mkManagerCore (h : String) (t : List String) : ClueGameManager :=
  let players := if h ≠ "You" then "You" :: t else h :: t
  { players := players
    knownCards := fun _ => []
    cannotHave := fun _ => []
    suggestions := []
    softBeliefs := fun _ _ => 1
    playerCardTracker := mkTracker players ALL_CARDS (fun _ => 3)
    probabilityEngine := mkEnvelopeEngine
    ruleEngine := mkRuleEngine (1 / 20) (3 / 2)
    remainderCards := []
    globalKnownCards := [] }

/-- `ClueGameManager.__init__` on a possibly-empty list: `players[0]` raises
`IndexError` on `[]`. -/
def mkManager (players0 : List String) : Option ClueGameManager :=
  match players0 with
  | [] => none
  | h :: t => some (mkManagerCore h t)

/-- `_update_global_known_cards` (lines 65–67). -/
def updateGlobalKnownCardsM (m : ClueGameManager) (card : String) :
    ClueGameManager :=
  { m with
    globalKnownCards := insertS card m.globalKnownCards
    probabilityEngine := updateKnownCard m.probabilityEngine card }

/-- The body shared by the first two branches of `add_suggestion`
(lines 115–130): the responder's known set gains the shown card, the global
known set and probability engine are updated, and every other player's soft
belief in the shown card drops to 0.0.  `self.known_cards[responder]` is a
dictionary lookup keyed by the player list, so callers must only reach this
body with an in-game responder: branch 1's condition pins the responder to
the first player, and branch 2 is guarded by the membership check below
(`none` modelling the `KeyError` otherwise). -/
def recordShownCard (m : ClueGameManager) (responder shownVal : String) :
    ClueGameManager :=
  let m' := { m with knownCards := fun p =>
      if p = responder then insertS shownVal (m.knownCards p) else m.knownCards p }
  let m'' := updateGlobalKnownCardsM m' shownVal
  { m'' with softBeliefs := fun p c =>
      if p ∈ m''.players ∧ p ≠ responder ∧ c = shownVal then 0
      else m''.softBeliefs p c }

/-- Branches of `add_suggestion` lines 114–148, after the engines have run:
dispatch on the responder / shown card.  Branch 1's responder is the first
player, a key of every per-player dictionary; branch 2's first statement
`self.known_cards[responder].add(shown_card)` raises `KeyError` when the
responder is not a known player (modelled by `none`), and the third branch's
`response_order.index(responder)` raises when the responder is not in that
order (modelled by `none`).  The soft-belief bump iterates over the *set*
`{suspect, weapon, room}`, so each distinct unknown card gains 0.1 exactly
once. -/
def addSuggestionBranches (m : ClueGameManager)
    (suggester suspect weapon room : String)
    (responder shownCard : Option String) (responseOrder : List String) :
    Option ClueGameManager :=
  if responder = some (m.players.headD "") ∧ truthy shownCard then
    some (recordShownCard m (responder.getD "") (shownCard.getD ""))
  else if truthy responder && truthy shownCard &&
      (suggester == m.players.headD "") then
    if (responder.getD "") ∈ m.players then
      some (recordShownCard m (responder.getD "") (shownCard.getD ""))
    else none
  else if truthy responder then
    if (responder.getD "") ∈ responseOrder then
      let responderIndex := responseOrder.indexOf (responder.getD "")
      let couldnt := responseOrder.take responderIndex
      some
        { m with
          cannotHave := fun p =>
            if p ∈ couldnt then
              [suspect, weapon, room].foldl (fun s c => insertS c s) (m.cannotHave p)
            else m.cannotHave p
          softBeliefs := fun p c =>
            if p = responder.getD "" ∧ c ∈ [suspect, weapon, room] ∧
                c ∉ m.knownCards (responder.getD "") then
              m.softBeliefs p c + 1 / 10
            else m.softBeliefs p c }
    else none
  else some m

/-- `ClueGameManager.add_suggestion` (lines 75–155), in source order:
append to history; update the tracker; `record_suggestion`; then
`apply_inference` — whose loop body calls `self.tracker.increase_prob`, a
method `PlayerCardTracker` does not define, so any non-empty refutation
history raises `AttributeError` (modelled by `none`); then the turn-order
branches; finally the envelope engine update.  `self.players.index(suggester)`
raises when the suggester is unknown (modelled by `none`). -/
def addSuggestion (m : ClueGameManager) (suggester suspect weapon room : String)
    (responder shownCard : Option String) : Option ClueGameManager :=
  let sugg : Suggestion :=
    { suggester := suggester, suspect := suspect, weapon := weapon,
      room := room, responder := responder, shownCard := shownCard }
  let m1 := { m with suggestions := m.suggestions ++ [sugg] }
  let suggestedCards := [suspect, weapon, room]
  match updateFromSuggestion m1.playerCardTracker suggestedCards suggester
      responder shownCard m1.players with
  | none => none
  | some tr =>
    let m2 := { m1 with playerCardTracker := tr }
    let m3 := { m2 with ruleEngine :=
        recordSuggestion m2.ruleEngine suggester suggestedCards responder shownCard }
    if m3.ruleEngine.histKeys = [] then
      if suggester ∈ m3.players then
        let sIdx := m3.players.indexOf suggester
        let responseOrder := m3.players.drop (sIdx + 1) ++ m3.players.take sIdx
        match addSuggestionBranches m3 suggester suspect weapon room responder
            shownCard responseOrder with
        | none => none
        | some m4 =>
          let pe := updateProbabilities m4.probabilityEngine suggestedCards
            responder shownCard
          some { m4 with probabilityEngine := pe }
      else none
    else none

/-- `get_player_cards` (lines 158–159): dictionary lookups keyed by the
player list; an unknown name raises `KeyError`, modelled by `none`. -/
def getPlayerCards (m : ClueGameManager) (player : String) :
    Option (List String × List String) :=
  if player ∈ m.players then some (m.knownCards player, m.cannotHave player)
  else none

/-- `is_solution_confident` of the manager (lines 178–179). -/
def managerConfident (m : ClueGameManager) (threshold : ℚ) : Bool :=
  isSolutionConfident m.probabilityEngine threshold


/-! ## Derived definitions used by the verification -/

/-- A run of `record_suggestion` calls, each with responder `p` and unknown
shown card (one per refutation-eligible suggestion), on a rule engine built
with the manager's defaults `base_increase = 0.05`, `growth_factor = 1.5`. -/
def foldRecords (p : String) (ls : List (List String)) :
    RuleBasedInferenceEngine :=
  ls.foldl (fun e s => recordSuggestion e "You" s (some p) none)
    (mkRuleEngine (1 / 20) (3 / 2))

/-- Modelled from the spec: the wrap-aware slice "every player strictly
between the suggester and the responder in clockwise turn order" (§4.1
outcome 2 and §4.3) — rotate the order to start immediately after the
suggester and take players up to (excluding) the responder.  This is the
definition the claims compare the source's `passedPlayers` slice against. -/
def specBetweenWrap (order : List String) (suggester responder : String) :
    List String :=
  (order.drop (order.indexOf suggester + 1) ++
    order.take (order.indexOf suggester)).takeWhile (fun p => p != responder)

/-- One externally triggerable `PlayerCardTracker` mutation: a
`update_from_suggestion` call or a `mark_known_card` call. -/
inductive TrackerEvent where
  | suggest (suggested : List String) (suggester : String)
      (responder shownCard : Option String) (playersInOrder : List String)
  | mark (player card : String)

/-- Run one tracker event (`none` models a raised exception). -/
def trackerStep (t : PlayerCardTracker) : TrackerEvent → Option PlayerCardTracker
  | .suggest sc sg r sh order => updateFromSuggestion t sc sg r sh order
  | .mark p c => some (markKnownCard t p c)

/-- Run a sequence of tracker events, stopping at the first exception. -/
def runTracker (t : PlayerCardTracker) : List TrackerEvent → Option PlayerCardTracker
  | [] => some t
  | e :: evs =>
    match trackerStep t e with
    | none => none
    | some t₁ => runTracker t₁ evs

/-- An event is consistent with the current knowledge when it never
contradicts a recorded known card: a shown or marked card is not already in
another player's known set, a passed player holds none of the suggested
cards in their known set, and the call passes the tracker's own player list
(as every call site in the source does). -/
def okEvent (t : PlayerCardTracker) : TrackerEvent → Bool
  | .mark player card =>
      t.players.all (fun q => q == player || decide (card ∉ t.knownCards q))
  | .suggest suggested _suggester responder shownCard order =>
      (order == t.players) &&
      (if truthy responder && truthy shownCard then
        t.players.all (fun q => q == responder.getD "" ||
          decide (shownCard.getD "" ∉ t.knownCards q))
      else if truthy responder then
        (passedPlayers order _suggester (responder.getD "")).all
          (fun p => suggested.all (fun c => decide (c ∉ t.knownCards p)))
      else true)

/-- A whole event sequence is consistent when each event is consistent with
the state it executes in. -/
def consistentRun (t : PlayerCardTracker) : List TrackerEvent → Bool
  | [] => true
  | e :: evs =>
    okEvent t e &&
      (match trackerStep t e with
      | none => true
      | some t₁ => consistentRun t₁ evs)

/-- The absorbing-known-cards invariant of the claim: every known card's
matrix column is pinned to 1 for its holder and 0 for every other player. -/
def Absorbing (t : PlayerCardTracker) : Prop :=
  ∀ p ∈ t.players, ∀ c ∈ t.knownCards p,
    t.playerCardProbs p c = 1 ∧
    ∀ q ∈ t.players, q ≠ p → t.playerCardProbs q c = 0

/-- All matrix entries are non-negative. -/
def NonnegProbs (t : PlayerCardTracker) : Prop :=
  ∀ p c, 0 ≤ t.playerCardProbs p c

/-- The sum, over a player's non-known cards, of that player's matrix row —
the quantity the capacity invariant bounds by the hand size. -/
def nonKnownRow (t : PlayerCardTracker) (p : String) : ℚ :=
  sumOver (t.cards.filter (fun c => decide (c ∉ t.knownCards p)))
    (t.playerCardProbs p)

/-- All three category distributions of the envelope engine are
non-negative. -/
def NonnegEngine (e : EnvelopeProbabilityEngine) : Prop :=
  (∀ c, 0 ≤ e.suspectProbs c) ∧ (∀ c, 0 ≤ e.weaponProbs c) ∧
    (∀ c, 0 ≤ e.roomProbs c)

/-- The amended per-category invariant: the category sums to exactly 1,
or it sums to 0 with every entry 0. -/
def CatOk (cards : List String) (f : String → ℚ) : Prop :=
  catSum cards f = 1 ∨ (catSum cards f = 0 ∧ ∀ c ∈ cards, f c = 0)

/-! ## List summation helpers -/

/-- A sum of non-negative values is non-negative. -/
theorem sum_map_nonneg {l : List String} {f : String → ℚ}
    (h : ∀ c ∈ l, 0 ≤ f c) : 0 ≤ (l.map f).sum := by
  induction l with
  | nil => simp
  | cons a l ih =>
    simp only [List.map_cons, List.sum_cons]
    have ha := h a (by simp)
    have hl := ih (fun c hc => h c (by simp [hc]))
    linarith

/-- Division distributes over a list sum. -/
theorem sum_map_div {l : List String} {f : String → ℚ} {T : ℚ} :
    (l.map (fun c => f c / T)).sum = (l.map f).sum / T := by
  induction l with
  | nil => simp
  | cons a l ih => simp [ih, div_add_div_same]

/-- Multiplication by a constant distributes over a list sum. -/
theorem sum_map_mul_right {l : List String} {f : String → ℚ} {k : ℚ} :
    (l.map (fun c => f c * k)).sum = (l.map f).sum * k := by
  induction l with
  | nil => simp
  | cons a l ih => simp [ih, add_mul]

/-- For non-negative values, summing over a filtered list is at most summing
over the whole list. -/
theorem sum_filter_le {l : List String} {f : String → ℚ} {p : String → Bool}
    (h : ∀ c ∈ l, 0 ≤ f c) :
    ((l.filter p).map f).sum ≤ (l.map f).sum := by
  induction l with
  | nil => simp
  | cons a l ih =>
    have ha := h a (by simp)
    have ih' := ih (fun c hc => h c (by simp [hc]))
    by_cases hp : p a <;> simp [List.filter_cons, hp] <;> linarith

/-- A sum whose terms vanish away from one element of a duplicate-free list
equals the value at that element. -/
theorem sum_eq_single {l : List String} {f : String → ℚ} {p : String}
    (hnd : l.Nodup) (hp : p ∈ l) (h0 : ∀ q ∈ l, q ≠ p → f q = 0) :
    (l.map f).sum = f p := by
  induction l with
  | nil => simp at hp
  | cons a l ih =>
    rcases List.mem_cons.mp hp with rfl | hmem
    · have hz : ∀ x ∈ l.map f, x = 0 := by
        intro x hx
        rcases List.mem_map.mp hx with ⟨q, hq, rfl⟩
        exact h0 q (List.mem_cons_of_mem _ hq)
          (fun h => (List.nodup_cons.mp hnd).1 (h ▸ hq))
      simp [List.sum_eq_zero hz]
    · have ha : f a = 0 :=
        h0 a (by simp) (fun h => (List.nodup_cons.mp hnd).1 (h ▸ hmem))
      simp [ha, ih (List.nodup_cons.mp hnd).2 hmem
        (fun q hq hne => h0 q (by simp [hq]) hne)]

/-- A zero sum of non-negative values forces every term to vanish. -/
theorem sum_map_eq_zero {l : List String} {f : String → ℚ}
    (hnn : ∀ c ∈ l, 0 ≤ f c) (hz : (l.map f).sum = 0) : ∀ c ∈ l, f c = 0 := by
  induction l with
  | nil => simp
  | cons a l ih =>
    simp only [List.map_cons, List.sum_cons] at hz
    have ha := hnn a (by simp)
    have hs : 0 ≤ (l.map f).sum :=
      sum_map_nonneg (fun c hc => hnn c (by simp [hc]))
    have hfa : f a = 0 := by linarith
    have hsum : (l.map f).sum = 0 := by linarith
    intro c hc
    rcases List.mem_cons.mp hc with rfl | hc'
    · exact hfa
    · exact ih (fun d hd => hnn d (by simp [hd])) hsum c hc'

/-- A non-empty Python string is truthy. -/
theorem truthy_some {s : String} (h : s ≠ "") : truthy (some s) = true := by
  simp [truthy, h]

/-! ## C1 -/

/-- C1: the claim says `PlayerCardTracker` provides `increase_prob(player,
card, amount)` (additive bump capped at 1.0, then renormalize) and that
`apply_inference` pushes every refutation increase through it.
`player_card_tracker.py` defines no `increase_prob` method, so on the first
refutation-eligible suggestion (responder present, shown card unknown)
`apply_inference` iterates a non-empty history and its first loop iteration's
call `self.tracker.increase_prob(...)` raises `AttributeError`: the whole
`add_suggestion` call fails (`none`) instead of applying a capped,
renormalized increase. -/
theorem c1_increase_prob_missing :
    ((mkManager ["You", "A", "B"]).bind
      (fun m => addSuggestion m "You" "Scarlett" "Rope" "Kitchen"
        (some "A") none)) = none := by rfl

/-! ## C2 -/

/-- C2 counterexample: the claim says every invalid suggestion event is
rejected atomically with a validation error and no state mutation.  Here the
shown card `"Plum"` is not one of the three suggested cards
`{Scarlett, Rope, Kitchen}` — an invalid event by the claim — yet
`add_suggestion` on a fresh three-player game succeeds and appends the event:
the suggestion history length becomes 1 instead of staying 0. -/
theorem c2_shown_card_not_validated :
    ((mkManager ["You", "A", "B"]).bind
      (fun m => addSuggestion m "You" "Scarlett" "Rope" "Kitchen"
        (some "A") (some "Plum"))).map
      (fun m => m.suggestions.length) = some 1 := by rfl

/-! ## C3 -/

/-- C3: the claim says the orchestrator never re-applies a previously
recorded increase and that a recorded suggestion adding no new refutation
count causes no additional belief increase for pairs recorded earlier.  In
the source, `add_suggestion` invokes `apply_inference` after *every*
suggestion and `apply_inference` iterates the entire refutation history each
time: after a second suggestion that records nothing (no responder), the push
list recomputed by `apply_inference` still contains the same non-zero
increases `0.05` for every (player, card) pair recorded by the first
suggestion — the double-count flagged in the spec's §9.  (In the source each
such push also crashes, because `increase_prob` does not exist; see C1.) -/
theorem c3_stale_history_reapplied :
    (let r1 := recordSuggestion (mkRuleEngine (1 / 20) (3 / 2)) "You"
      ["Scarlett", "Rope", "Kitchen"] (some "A") none
    let r2 := recordSuggestion r1 "A" ["Plum", "Knife", "Library"] none none
    applyInferencePushes r2 = applyInferencePushes r1 ∧
    applyInferencePushes r2 =
      [("A", "Scarlett", 1 / 20), ("A", "Rope", 1 / 20),
       ("A", "Kitchen", 1 / 20)]) := by
  constructor
  · rfl
  · simp [recordSuggestion, recordOne, mkRuleEngine, applyInferencePushes,
      increaseFor, truthy]

/-! ## C10 -/

/-- C10: constructing the orchestrator from a player list whose first
element is not `"You"` overwrites that first element with `"You"` (the
source mutates the caller's list in place; the constructor then shares that
rewritten list), keys all per-player state by `"You"`, and a query using the
original first name fails with a `KeyError` (modelled by `none`). -/
theorem c10_first_player_renamed (h : String) (t : List String)
    (hne : h ≠ "You") (hnin : h ∉ t) :
    (mkManager (h :: t)).map (fun m => m.players) = some ("You" :: t) ∧
    ("You" :: t) ≠ (h :: t) ∧
    (mkManager (h :: t)).map (fun m => m.playerCardTracker.players) =
      some ("You" :: t) ∧
    (mkManager (h :: t)).map (fun m => getPlayerCards m "You") =
      some (some ([], [])) ∧
    (mkManager (h :: t)).map (fun m => getPlayerCards m h) = some none := by
  refine ⟨?_, ?_, ?_, ?_, ?_⟩ <;>
    simp [mkManager, mkManagerCore, mkTracker, getPlayerCards, hne, hnin,
      Ne.symm hne]

/-- C10 witness: a concrete game started as `["Alice", "A", "B"]` is keyed
by `"You"` and no longer answers queries for `"Alice"`. -/
theorem c10_first_player_renamed_witness :
    (mkManager ["Alice", "A", "B"]).map (fun m => m.players) =
      some ["You", "A", "B"] ∧
    (mkManager ["Alice", "A", "B"]).map (fun m => getPlayerCards m "Alice") =
      some none :=
  ⟨(c10_first_player_renamed "Alice" ["A", "B"] (by decide) (by decide)).1,
   (c10_first_player_renamed "Alice" ["A", "B"] (by decide) (by decide)).2.2.2.2⟩

/-- C2 amended: `add_suggestion` performs no validation at all.  Rather than
being rejected atomically, an invalid event is accepted whenever the call
completes: with any non-empty in-game responder and any non-empty shown
card, and the suggester a known player with either the suggester or the
responder being the first player, the call succeeds and appends the event to
the history — with no hypothesis relating the shown card to the three
suggested cards and none forbidding `responder = suggester`.  Events naming
unknown players are not validated either: they fail through an incidental
lookup error (`KeyError` at `self.known_cards[responder]`, modelled by
`none`) raised only after the history and tracker have already been mutated
in the source, so even failures are not atomic rejections. -/
theorem c2_no_validation (m : ClueGameManager)
    (suggester suspect weapon room r c : String)
    (hkeys : m.ruleEngine.histKeys = [])
    (hsug : suggester ∈ m.players)
    (hresp : r ∈ m.players)
    (hr : r ≠ "") (hc : c ≠ "")
    (hfirst : r = m.players.headD "" ∨ suggester = m.players.headD "") :
    (addSuggestion m suggester suspect weapon room (some r) (some c)).map
      (fun m' => m'.suggestions.length) = some (m.suggestions.length + 1) ∧
    (∀ r', r' ∉ m.players → r' ≠ "" → suggester = m.players.headD "" →
      addSuggestion m suggester suspect weapon room (some r') (some c)
        = none) := by
  have htc : truthy (some c) = true := truthy_some hc
  have hheadmem : m.players.headD "" ∈ m.players := by
    cases hpl : m.players with
    | nil =>
      rw [hpl] at hsug
      exact absurd hsug (List.not_mem_nil suggester)
    | cons a t =>
      exact List.mem_cons_self a t
  constructor
  · have htr : truthy (some r) = true := truthy_some hr
    by_cases hrh : r = m.players.headD ""
    · have htr' : truthy (some (m.players.head?.getD "")) = true := by
        rw [← List.headD_eq_head?]; exact hrh ▸ htr
      simp [addSuggestion, updateFromSuggestion, recordSuggestion, htr, htc,
        htr', addSuggestionBranches, recordShownCard, updateGlobalKnownCardsM,
        hkeys, hsug, hrh]
    · have hsh : suggester = m.players.headD "" := hfirst.resolve_left hrh
      have hmem : m.players.head?.getD "" ∈ m.players := by
        rw [← List.headD_eq_head?]; exact hsh ▸ hsug
      simp [addSuggestion, updateFromSuggestion, recordSuggestion, htr, htc,
        addSuggestionBranches, recordShownCard, updateGlobalKnownCardsM,
        hkeys, hsug, hresp, hrh, hsh, hmem]
  · intro r' hr'nin hr'ne hsh
    have htr' : truthy (some r') = true := truthy_some hr'ne
    have hrh' : ¬r' = m.players.headD "" := by
      intro h0
      rw [h0] at hr'nin
      exact hr'nin hheadmem
    have hrh'2 : ¬r' = m.players.head?.getD "" := by
      rw [← List.headD_eq_head?]
      exact hrh'
    have hmem : m.players.head?.getD "" ∈ m.players := by
      rw [← List.headD_eq_head?]
      exact hheadmem
    simp [addSuggestion, updateFromSuggestion, recordSuggestion, htr', htc,
      addSuggestionBranches, hkeys, hsug, hrh', hrh'2, hsh, hmem, hr'nin]

/-- C2 amended witness: on a fresh three-player game, the event whose shown
card `"Plum"` is not among the suggested `{Scarlett, Rope, Kitchen}` is
accepted and recorded. -/
theorem c2_no_validation_witness :
    ((mkManagerCore "You" ["A", "B"]).ruleEngine.histKeys = [] ∧
      "You" ∈ (mkManagerCore "You" ["A", "B"]).players ∧
      "A" ∈ (mkManagerCore "You" ["A", "B"]).players ∧
      ("A" : String) ≠ "" ∧ ("Plum" : String) ≠ "") ∧
    (addSuggestion (mkManagerCore "You" ["A", "B"]) "You" "Scarlett" "Rope"
      "Kitchen" (some "A") (some "Plum")).map
      (fun m' => m'.suggestions.length) = some 1 :=
  by
  refine ⟨⟨rfl, ?_, ?_, by decide, by decide⟩, ?_⟩
  · simp [mkManagerCore]
  · simp [mkManagerCore]
  · simpa using (c2_no_validation (mkManagerCore "You" ["A", "B"]) "You"
      "Scarlett" "Rope" "Kitchen" "A" "Plum" rfl (by simp [mkManagerCore])
      (by simp [mkManagerCore]) (by decide) (by decide)
      (Or.inr (by simp [mkManagerCore]))).1

/-! ## C9 -/

/-- One refutation-eligible `record_suggestion` call is the fold of
`recordOne` over the suggested cards. -/
theorem recordSuggestion_eligible (e : RuleBasedInferenceEngine) (sg : String)
    (s : List String) {p : String} (hp : p ≠ "") :
    recordSuggestion e sg s (some p) none =
      s.foldl (fun acc d => recordOne acc p d) e := by
  simp [recordSuggestion, truthy, hp]

/-- Folding `recordOne` adds the card's multiplicity to its count. -/
theorem foldl_recordOne_count (s : List String) (e : RuleBasedInferenceEngine)
    (p c : String) :
    (s.foldl (fun acc d => recordOne acc p d) e).histCount p c
      = e.histCount p c + s.count c := by
  induction s generalizing e with
  | nil => simp
  | cons a s ih =>
    have hrec : (recordOne e p a).histCount p c
        = e.histCount p c + (if c = a then 1 else 0) := by
      by_cases hac : c = a <;> simp [recordOne, hac]
    rw [List.foldl_cons, ih, hrec, List.count_cons]
    rcases eq_or_ne c a with hac | hac
    · subst hac
      simp
      omega
    · simp [hac, Ne.symm hac]

/-- Folding `recordOne` leaves the engine's constants unchanged. -/
theorem foldl_recordOne_consts (s : List String) (e : RuleBasedInferenceEngine)
    (p : String) :
    (s.foldl (fun acc d => recordOne acc p d) e).baseIncrease = e.baseIncrease ∧
    (s.foldl (fun acc d => recordOne acc p d) e).growthFactor = e.growthFactor := by
  induction s generalizing e with
  | nil => exact ⟨rfl, rfl⟩
  | cons a s ih =>
    rw [List.foldl_cons]
    exact ⟨(ih (recordOne e p a)).1.trans rfl, (ih (recordOne e p a)).2.trans rfl⟩

/-- Count and constants after a whole run of refutation-eligible
suggestions, each containing the card exactly once. -/
theorem foldRecords_spec (p c : String) (hp : p ≠ "")
    (ls : List (List String)) (hone : ∀ s ∈ ls, s.count c = 1) :
    (foldRecords p ls).histCount p c = ls.length ∧
    (foldRecords p ls).baseIncrease = 1 / 20 ∧
    (foldRecords p ls).growthFactor = 3 / 2 := by
  have main : ∀ (ls : List (List String)) (e : RuleBasedInferenceEngine),
      (∀ s ∈ ls, s.count c = 1) →
      (ls.foldl (fun e s => recordSuggestion e "You" s (some p) none) e).histCount p c
          = e.histCount p c + ls.length ∧
      (ls.foldl (fun e s => recordSuggestion e "You" s (some p) none) e).baseIncrease
          = e.baseIncrease ∧
      (ls.foldl (fun e s => recordSuggestion e "You" s (some p) none) e).growthFactor
          = e.growthFactor := by
    intro ls
    induction ls with
    | nil => intro e _; exact ⟨by simp, rfl, rfl⟩
    | cons s ls ih =>
      intro e hone
      have h1 := hone s (by simp)
      obtain ⟨ihc, ihb, ihg⟩ := ih (recordSuggestion e "You" s (some p) none)
        (fun s' hs' => hone s' (by simp [hs']))
      refine ⟨?_, ?_, ?_⟩
      · rw [List.foldl_cons, ihc, recordSuggestion_eligible e "You" s hp,
          foldl_recordOne_count, h1]
        simp only [List.length_cons]
        omega
      · rw [List.foldl_cons, ihb, recordSuggestion_eligible e "You" s hp,
          (foldl_recordOne_consts s e p).1]
      · rw [List.foldl_cons, ihg, recordSuggestion_eligible e "You" s hp,
          (foldl_recordOne_consts s e p).2]
  obtain ⟨h1, h2, h3⟩ := main ls (mkRuleEngine (1 / 20) (3 / 2)) hone
  unfold foldRecords
  refine ⟨?_, ?_, ?_⟩
  · rw [h1]
    simp [mkRuleEngine]
  · rw [h2]
    rfl
  · rw [h3]
    rfl

/-- C9: when the same (player, card) pair is refuted with an unknown shown
card across `n` separate suggestions (each naming the card once), the
increase `apply()` computes for that pair is `0.05 × 1.5^(n−1)`
(`base_increase × growth_factor^(count−1)`, line 60), so successive
increases strictly grow; concretely the first three are `0.05`, `0.075`
and `0.1125` (= 1/20, 3/40, 9/80). -/
theorem c9_escalating_increase (p c : String) (hp : p ≠ "")
    (ls : List (List String)) (hone : ∀ s ∈ ls, s.count c = 1) :
    increaseFor (foldRecords p ls) p c = 1 / 20 * (3 / 2) ^ (ls.length - 1) ∧
    (∀ s', s'.count c = 1 → 1 ≤ ls.length →
      increaseFor (foldRecords p ls) p c
        < increaseFor (foldRecords p (ls ++ [s'])) p c) ∧
    (increaseFor (foldRecords "A" [["Scarlett", "Rope", "Kitchen"]])
        "A" "Scarlett" = 1 / 20 ∧
     increaseFor (foldRecords "A" [["Scarlett", "Rope", "Kitchen"],
        ["Scarlett", "Knife", "Study"]]) "A" "Scarlett" = 3 / 40 ∧
     increaseFor (foldRecords "A" [["Scarlett", "Rope", "Kitchen"],
        ["Scarlett", "Knife", "Study"], ["Scarlett", "Candlestick", "Hall"]])
        "A" "Scarlett" = 9 / 80 ∧
     (1 / 20 : ℚ) < 3 / 40 ∧ (3 / 40 : ℚ) < 9 / 80) := by
  obtain ⟨hc, hb, hg⟩ := foldRecords_spec p c hp ls hone
  refine ⟨?_, ?_, ?_⟩
  · rw [increaseFor, hc, hb, hg]
  · intro s' hs' hlen
    obtain ⟨hc', hb', hg'⟩ := foldRecords_spec p c hp (ls ++ [s'])
      (by intro s hs
          rcases List.mem_append.mp hs with h | h
          · exact hone s h
          · simp only [List.mem_singleton] at h; subst h; exact hs')
    rw [increaseFor, hc, hb, hg, increaseFor, hc', hb', hg']
    have hexp : ls.length - 1 < (ls ++ [s']).length - 1 := by
      simp only [List.length_append, List.length_singleton]
      omega
    have hpow : (3 / 2 : ℚ) ^ (ls.length - 1)
        < (3 / 2 : ℚ) ^ ((ls ++ [s']).length - 1) :=
      pow_lt_pow_right₀ (by norm_num) hexp
    have h20 : (0 : ℚ) < 1 / 20 := by norm_num
    exact mul_lt_mul_of_pos_left hpow h20
  · refine ⟨?_, ?_, ?_, by norm_num, by norm_num⟩ <;>
      simp [foldRecords, recordSuggestion, recordOne, mkRuleEngine,
        increaseFor, truthy] <;> norm_num

/-- C9 witness: two refutations of (A, Scarlett) with unknown shown card
leave the computed increase at `0.05 × 1.5^(2−1)`. -/
theorem c9_escalating_increase_witness :
    (("A" : String) ≠ "" ∧
      (∀ s ∈ [["Scarlett", "Rope", "Kitchen"], ["Scarlett", "Knife", "Study"]],
        s.count "Scarlett" = 1)) ∧
    increaseFor (foldRecords "A" [["Scarlett", "Rope", "Kitchen"],
        ["Scarlett", "Knife", "Study"]]) "A" "Scarlett"
      = 1 / 20 * (3 / 2) ^ (1 : ℕ) :=
  ⟨⟨by decide, by decide⟩,
    (c9_escalating_increase "A" "Scarlett" (by decide)
      [["Scarlett", "Rope", "Kitchen"], ["Scarlett", "Knife", "Study"]]
      (by decide)).1⟩

/-! ## C7 -/

/-- Card categories are pairwise disjoint (weapons are not suspects). -/
theorem weapons_not_suspects : ∀ x ∈ WEAPONS, x ∉ SUSPECTS := by decide

/-- Card categories are pairwise disjoint (rooms are not suspects). -/
theorem rooms_not_suspects : ∀ x ∈ ROOMS, x ∉ SUSPECTS := by decide

/-- Card categories are pairwise disjoint (rooms are not weapons). -/
theorem rooms_not_weapons : ∀ x ∈ ROOMS, x ∉ WEAPONS := by decide

/-- The suspect list has no duplicates. -/
theorem suspects_nodup : SUSPECTS.Nodup := by decide

/-- The weapon list has no duplicates. -/
theorem weapons_nodup : WEAPONS.Nodup := by decide

/-- The room list has no duplicates. -/
theorem rooms_nodup : ROOMS.Nodup := by decide

/-- `oneHotCategory` on a suspect rewrites only the suspect distribution. -/
theorem oneHotCategory_suspect (e : EnvelopeProbabilityEngine) {card : String}
    (h : card ∈ SUSPECTS) :
    oneHotCategory e card = { e with suspectProbs := fun c =>
      if c ∈ SUSPECTS then (if c = card then 1 else 0) else e.suspectProbs c } := by
  unfold oneHotCategory
  rw [if_pos h]

/-- `oneHotCategory` on a weapon rewrites only the weapon distribution. -/
theorem oneHotCategory_weapon (e : EnvelopeProbabilityEngine) {card : String}
    (h : card ∈ WEAPONS) :
    oneHotCategory e card = { e with weaponProbs := fun c =>
      if c ∈ WEAPONS then (if c = card then 1 else 0) else e.weaponProbs c } := by
  unfold oneHotCategory
  rw [if_neg (weapons_not_suspects card h), if_pos h]

/-- `oneHotCategory` on a room rewrites only the room distribution. -/
theorem oneHotCategory_room (e : EnvelopeProbabilityEngine) {card : String}
    (h : card ∈ ROOMS) :
    oneHotCategory e card = { e with roomProbs := fun c =>
      if c ∈ ROOMS then (if c = card then 1 else 0) else e.roomProbs c } := by
  unfold oneHotCategory
  rw [if_neg (rooms_not_suspects card h), if_neg (rooms_not_weapons card h),
    if_pos h]

/-- Normalizing a one-hot category distribution leaves it one-hot. -/
theorem normalizeCategory_onehot (cards : List String) (f : String → ℚ)
    (a : String) (hnd : cards.Nodup) (ha : a ∈ cards)
    (hf : ∀ c ∈ cards, f c = if c = a then 1 else 0) :
    ∀ c ∈ cards, normalizeCategory cards f c = if c = a then 1 else 0 := by
  have hsum : catSum cards f = 1 := by
    have h1 : (cards.map f).sum = f a :=
      sum_eq_single hnd ha (fun q hq hne => by rw [hf q hq, if_neg hne])
    rw [catSum, h1, hf a ha, if_pos rfl]
  intro c hc
  rw [normalizeCategory, if_pos (by rw [hsum]; norm_num)]
  simp only [hc, if_true, hsum, div_one]
  exact hf c hc

/-- C7: with no responder, `update_probabilities` forces a one-hot
distribution in each implicated category — the suggested card's probability
becomes 1.0 and every sibling 0.0 — and in a fresh three-player game the
recorded You-suggestion `(Scarlett, Rope, Kitchen)` with `responder = None`
yields probability 1.0 for each suggested card and makes
`is_solution_confident(0.9)` return true. -/
theorem c7_no_responder_one_hot (e : EnvelopeProbabilityEngine)
    (sus w rm : String) (hs : sus ∈ SUSPECTS) (hw : w ∈ WEAPONS)
    (hr : rm ∈ ROOMS) :
    ((∀ c ∈ SUSPECTS, (updateProbabilities e [sus, w, rm] none none).suspectProbs c
        = if c = sus then 1 else 0) ∧
     (∀ c ∈ WEAPONS, (updateProbabilities e [sus, w, rm] none none).weaponProbs c
        = if c = w then 1 else 0) ∧
     (∀ c ∈ ROOMS, (updateProbabilities e [sus, w, rm] none none).roomProbs c
        = if c = rm then 1 else 0)) ∧
    ((mkManager ["You", "A", "B"]).bind (fun m =>
        addSuggestion m "You" "Scarlett" "Rope" "Kitchen" none none)).map
      (fun m => (SUSPECTS.map m.probabilityEngine.suspectProbs,
                 WEAPONS.map m.probabilityEngine.weaponProbs,
                 ROOMS.map m.probabilityEngine.roomProbs,
                 managerConfident m (9 / 10)))
      = some ([1, 0, 0, 0, 0, 0], [1, 0, 0, 0, 0, 0],
              [1, 0, 0, 0, 0, 0, 0, 0, 0], true) := by
  constructor
  · have hmut : updateMutate e [sus, w, rm] none none
        = oneHotCategory (oneHotCategory (oneHotCategory e sus) w) rm := by
      simp [updateMutate, truthy]
    rw [updateProbabilities, hmut]
    rw [oneHotCategory_suspect e hs, oneHotCategory_weapon _ hw,
      oneHotCategory_room _ hr]
    refine ⟨?_, ?_, ?_⟩
    · exact normalizeCategory_onehot SUSPECTS _ sus suspects_nodup hs
        (fun c hc => by simp [hc])
    · exact normalizeCategory_onehot WEAPONS _ w weapons_nodup hw
        (fun c hc => by simp [hc])
    · exact normalizeCategory_onehot ROOMS _ rm rooms_nodup hr
        (fun c hc => by simp [hc])
  · simp [mkManager, mkManagerCore, addSuggestion, mkTracker, ALL_CARDS,
      updateFromSuggestion, truthy, zeroAllUnknown, normalizeProbabilities,
      normalizeCards, normalizeHandSizes, colTotal, rowTotal, sumOver,
      pinCard, insertS, recordSuggestion, mkRuleEngine, addSuggestionBranches,
      updateProbabilities, updateMutate, oneHotCategory, normalizeCategory,
      catSum,
      mkEnvelopeEngine, initCategoryProbs, managerConfident,
      isSolutionConfident, pymax, SUSPECTS, WEAPONS, ROOMS]
    norm_num

/-- C7 witness: the one-hot theorem instantiated at the fresh engine and
the scenario triple. -/
theorem c7_no_responder_one_hot_witness :
    ("Scarlett" ∈ SUSPECTS ∧ "Rope" ∈ WEAPONS ∧ "Kitchen" ∈ ROOMS) ∧
    (∀ c ∈ SUSPECTS,
      (updateProbabilities mkEnvelopeEngine ["Scarlett", "Rope", "Kitchen"]
        none none).suspectProbs c = if c = "Scarlett" then 1 else 0) :=
  ⟨⟨by decide, by decide, by decide⟩,
    (c7_no_responder_one_hot mkEnvelopeEngine "Scarlett" "Rope" "Kitchen"
      (by decide) (by decide) (by decide)).1.1⟩

/-! ## C8 -/

/-- C8: the claim says exactly the players strictly between suggester and
responder in wrap-aware clockwise order get the three suggested cards zeroed
and added to their cannot-have sets.  With four players `[You, A, B, C]`,
suggester `B` and responder `A`, the wrap-aware strictly-between slice is
`[C, You]`, but the tracker's Python slice clamps at the end of the list and
produces only `[C]` (the latent defect the spec's §9 notes): `You` keeps a
non-zero matrix entry (`4/25` after renormalization) and an empty cannot-have
set, while `C` is zeroed and marked.  The claim's three-player clause holds:
with the responder seated immediately after the suggester no cannot-have set
changes. -/
theorem c8_wraparound_not_zeroed :
    passedPlayers ["You", "A", "B", "C"] "B" "A" = ["C"] ∧
    specBetweenWrap ["You", "A", "B", "C"] "B" "A" = ["C", "You"] ∧
    (updateFromSuggestion (mkTracker ["You", "A", "B", "C"] ALL_CARDS (fun _ => 3))
      ["Scarlett", "Rope", "Kitchen"] "B" (some "A") none
      ["You", "A", "B", "C"]).map
      (fun t => (t.playerCardProbs "You" "Scarlett",
                 decide ("Scarlett" ∈ t.cannotHave "You"),
                 t.playerCardProbs "C" "Scarlett",
                 decide ("Scarlett" ∈ t.cannotHave "C")))
      = some (4 / 25, false, 0, true) ∧
    (updateFromSuggestion (mkTracker ["You", "A", "B"] ALL_CARDS (fun _ => 3))
      ["Green", "Candlestick", "Study"] "A" (some "B") none
      ["You", "A", "B"]).map
      (fun t => (t.cannotHave "You", t.cannotHave "A", t.cannotHave "B"))
      = some ([], [], []) := by
  refine ⟨by decide, by decide, ?_, ?_⟩
  · simp [updateFromSuggestion, truthy, mkTracker, ALL_CARDS, SUSPECTS, WEAPONS,
      ROOMS, passedPlayers, zeroPassed, boostResponder, normalizeProbabilities,
      normalizeCards, normalizeHandSizes, pinCard, zeroAllUnknown, colTotal,
      rowTotal, sumOver, insertS, List.indexOf, List.findIdx, List.findIdx.go]
    norm_num
  · simp [updateFromSuggestion, truthy, mkTracker, ALL_CARDS, SUSPECTS, WEAPONS,
      ROOMS, passedPlayers, zeroPassed, boostResponder, normalizeProbabilities,
      normalizeCards, normalizeHandSizes, pinCard, zeroAllUnknown, colTotal,
      rowTotal, sumOver, insertS, List.indexOf, List.findIdx, List.findIdx.go]

/-! ## C5 -/

/-- C5 counterexample: the claim says each category's probabilities always
sum to 1.0 within 1e-6 after every update.  Showing all six suspects across
six suggestions leaves every suspect entry 0: the suspect category sum is 0
after the sixth `update_probabilities` (its `_update_known_card` finds no
remaining unknown suspect to redistribute to, and `_normalize_category`
skips the zero sum), off from 1.0 by far more than 1e-6. -/
theorem c5_all_suspects_known_sum_zero :
    catSum SUSPECTS
      ((SUSPECTS.foldl
        (fun e s => updateProbabilities e [s, "Rope", "Kitchen"] (some "A") (some s))
        mkEnvelopeEngine).suspectProbs) = 0 ∧
    (1 / 1000000 : ℚ) <
      |catSum SUSPECTS
        ((SUSPECTS.foldl
          (fun e s => updateProbabilities e [s, "Rope", "Kitchen"] (some "A") (some s))
          mkEnvelopeEngine).suspectProbs) - 1| := by
  have h : catSum SUSPECTS
      ((SUSPECTS.foldl
        (fun e s => updateProbabilities e [s, "Rope", "Kitchen"] (some "A") (some s))
        mkEnvelopeEngine).suspectProbs) = 0 := by
    simp [updateProbabilities, updateMutate, truthy, mkEnvelopeEngine,
      initCategoryProbs, updateKnownCard, decreaseProbability, oneHotCategory,
      catSum, normalizeCategory, insertS, SUSPECTS, WEAPONS, ROOMS, sumOver]
    norm_num
  rw [h]
  exact ⟨rfl, by norm_num⟩

/-- `_normalize_category` is skipped exactly on a zero sum (for non-negative
entries, the only way the total fails to be positive), and otherwise yields
an exact unit sum. -/
theorem normalizeCategory_props (cards : List String) (f : String → ℚ)
    (_hnn : ∀ c ∈ cards, 0 ≤ f c) :
    (catSum cards f = 0 → ∀ c, normalizeCategory cards f c = f c) ∧
    (0 < catSum cards f → catSum cards (normalizeCategory cards f) = 1) := by
  constructor
  · intro hz c
    rw [normalizeCategory, if_neg]
    rw [hz]
    exact lt_irrefl 0
  · intro hpos
    have h1 : catSum cards (normalizeCategory cards f)
        = (cards.map (fun c => f c / catSum cards f)).sum := by
      rw [catSum]
      apply congrArg List.sum
      apply List.map_congr_left
      intro c hc
      rw [normalizeCategory, if_pos hpos]
      simp [hc]
    rw [h1, sum_map_div]
    exact div_self (ne_of_gt hpos)

/-- Normalizing a category with non-negative entries establishes the amended
invariant: unit sum, or zero sum with every entry zero. -/
theorem catok_of_normalize (cards : List String) (f : String → ℚ)
    (hnn : ∀ c ∈ cards, 0 ≤ f c) :
    CatOk cards (normalizeCategory cards f) := by
  have h0 : 0 ≤ catSum cards f := sum_map_nonneg hnn
  rcases eq_or_lt_of_le h0 with hz | hpos
  · have hz' : catSum cards f = 0 := hz.symm
    have hfun : normalizeCategory cards f = f :=
      funext ((normalizeCategory_props cards f hnn).1 hz')
    right
    rw [hfun]
    exact ⟨hz', sum_map_eq_zero hnn hz'⟩
  · left
    exact (normalizeCategory_props cards f hnn).2 hpos

/-- `_update_known_card` preserves non-negativity. -/
theorem updateKnownCard_nonneg (e : EnvelopeProbabilityEngine) (card : String)
    (h : NonnegEngine e) : NonnegEngine (updateKnownCard e card) := by
  obtain ⟨h1, h2, h3⟩ := h
  rw [updateKnownCard]
  by_cases hs : card ∈ SUSPECTS
  · simp only [if_pos hs]
    refine ⟨fun c => ?_, fun c => h2 c, fun c => h3 c⟩
    dsimp only
    split_ifs
    · positivity
    · norm_num
    · exact h1 c
  · by_cases hw : card ∈ WEAPONS
    · simp only [if_neg hs, if_pos hw]
      refine ⟨fun c => h1 c, fun c => ?_, fun c => h3 c⟩
      dsimp only
      split_ifs
      · positivity
      · norm_num
      · exact h2 c
    · by_cases hr : card ∈ ROOMS
      · simp only [if_neg hs, if_neg hw, if_pos hr]
        refine ⟨fun c => h1 c, fun c => h2 c, fun c => ?_⟩
        dsimp only
        split_ifs
        · positivity
        · norm_num
        · exact h3 c
      · simp only [if_neg hs, if_neg hw, if_neg hr]
        exact ⟨h1, h2, h3⟩

/-- `_decrease_probability` preserves non-negativity. -/
theorem decreaseProbability_nonneg (e : EnvelopeProbabilityEngine)
    (card : String) (h : NonnegEngine e) :
    NonnegEngine (decreaseProbability e card) := by
  obtain ⟨h1, h2, h3⟩ := h
  rw [decreaseProbability]
  by_cases hs : card ∈ SUSPECTS
  · simp only [if_pos hs]
    refine ⟨fun c => ?_, fun c => h2 c, fun c => h3 c⟩
    dsimp only
    split_ifs
    · exact mul_nonneg (h1 c) (by norm_num)
    · exact h1 c
  · by_cases hw : card ∈ WEAPONS
    · simp only [if_neg hs, if_pos hw]
      refine ⟨fun c => h1 c, fun c => ?_, fun c => h3 c⟩
      dsimp only
      split_ifs
      · exact mul_nonneg (h2 c) (by norm_num)
      · exact h2 c
    · by_cases hr : card ∈ ROOMS
      · simp only [if_neg hs, if_neg hw, if_pos hr]
        refine ⟨fun c => h1 c, fun c => h2 c, fun c => ?_⟩
        dsimp only
        split_ifs
        · exact mul_nonneg (h3 c) (by norm_num)
        · exact h3 c
      · simp only [if_neg hs, if_neg hw, if_neg hr]
        exact ⟨h1, h2, h3⟩

/-- The one-hot overwrite preserves non-negativity. -/
theorem oneHotCategory_nonneg (e : EnvelopeProbabilityEngine) (card : String)
    (h : NonnegEngine e) : NonnegEngine (oneHotCategory e card) := by
  obtain ⟨h1, h2, h3⟩ := h
  rw [oneHotCategory]
  by_cases hs : card ∈ SUSPECTS
  · simp only [if_pos hs]
    refine ⟨fun c => ?_, fun c => h2 c, fun c => h3 c⟩
    dsimp only
    split_ifs <;> first | exact h1 c | norm_num
  · by_cases hw : card ∈ WEAPONS
    · simp only [if_neg hs, if_pos hw]
      refine ⟨fun c => h1 c, fun c => ?_, fun c => h3 c⟩
      dsimp only
      split_ifs <;> first | exact h2 c | norm_num
    · by_cases hr : card ∈ ROOMS
      · simp only [if_neg hs, if_neg hw, if_pos hr]
        refine ⟨fun c => h1 c, fun c => h2 c, fun c => ?_⟩
        dsimp only
        split_ifs <;> first | exact h3 c | norm_num
      · simp only [if_neg hs, if_neg hw, if_neg hr]
        exact ⟨h1, h2, h3⟩

/-- The decrease fold of case 1 preserves non-negativity. -/
theorem foldl_decrease_nonneg (l : List String) (shown : String)
    (e : EnvelopeProbabilityEngine) (h : NonnegEngine e) :
    NonnegEngine (l.foldl
      (fun acc c => if c ≠ shown then decreaseProbability acc c else acc) e) := by
  induction l generalizing e with
  | nil => exact h
  | cons a l ih =>
    rw [List.foldl_cons]
    by_cases ha : a ≠ shown
    · rw [if_pos ha]
      exact ih _ (decreaseProbability_nonneg e a h)
    · rw [if_neg ha]
      exact ih _ h

/-- The one-hot fold of case 3 preserves non-negativity. -/
theorem foldl_onehot_nonneg (l : List String)
    (e : EnvelopeProbabilityEngine) (h : NonnegEngine e) :
    NonnegEngine (l.foldl (fun acc c => oneHotCategory acc c) e) := by
  induction l generalizing e with
  | nil => exact h
  | cons a l ih =>
    rw [List.foldl_cons]
    exact ih _ (oneHotCategory_nonneg e a h)

/-- The mutation phase of `update_probabilities` preserves non-negativity. -/
theorem updateMutate_nonneg (e : EnvelopeProbabilityEngine)
    (sc : List String) (r sh : Option String) (h : NonnegEngine e) :
    NonnegEngine (updateMutate e sc r sh) := by
  unfold updateMutate
  split_ifs
  · exact foldl_decrease_nonneg sc (sh.getD "") _
      (updateKnownCard_nonneg e (sh.getD "") h)
  · exact foldl_onehot_nonneg sc e h
  · exact h

/-- C5 amended: the category sums are exactly 1 after initialization, and
after every `update_probabilities` each category either sums to exactly 1 or
— in the degenerate case where every entry of the category has been zeroed,
e.g. once all its cards are known — sums to 0; normalization is skipped
exactly when a category's sum is 0 (for the non-negative entries the engine
maintains), and no update divides by zero (the skipped branch is the only
zero-denominator case). -/
theorem c5_category_sums (e : EnvelopeProbabilityEngine) (sc : List String)
    (r sh : Option String) (hnn : NonnegEngine e) :
    (catSum SUSPECTS mkEnvelopeEngine.suspectProbs = 1 ∧
     catSum WEAPONS mkEnvelopeEngine.weaponProbs = 1 ∧
     catSum ROOMS mkEnvelopeEngine.roomProbs = 1) ∧
    (CatOk SUSPECTS (updateProbabilities e sc r sh).suspectProbs ∧
     CatOk WEAPONS (updateProbabilities e sc r sh).weaponProbs ∧
     CatOk ROOMS (updateProbabilities e sc r sh).roomProbs) ∧
    (∀ (cards : List String) (f : String → ℚ), (∀ c ∈ cards, 0 ≤ f c) →
      (catSum cards f = 0 → ∀ c, normalizeCategory cards f c = f c) ∧
      (0 < catSum cards f → catSum cards (normalizeCategory cards f) = 1)) := by
  have hnn1 := updateMutate_nonneg e sc r sh hnn
  refine ⟨⟨?_, ?_, ?_⟩, ⟨?_, ?_, ?_⟩, fun cards f h => normalizeCategory_props cards f h⟩
  · norm_num [catSum, mkEnvelopeEngine, initCategoryProbs, SUSPECTS, sumOver]
  · norm_num [catSum, mkEnvelopeEngine, initCategoryProbs, WEAPONS, sumOver]
  · norm_num [catSum, mkEnvelopeEngine, initCategoryProbs, ROOMS, sumOver]
  · exact catok_of_normalize SUSPECTS _ (fun c _ => hnn1.1 c)
  · exact catok_of_normalize WEAPONS _ (fun c _ => hnn1.2.1 c)
  · exact catok_of_normalize ROOMS _ (fun c _ => hnn1.2.2 c)

/-- C5 amended witness: a fresh engine is non-negative, and updating it with
Scenario A's suggestion keeps the suspect category invariant. -/
theorem c5_category_sums_witness :
    NonnegEngine mkEnvelopeEngine ∧
    CatOk SUSPECTS
      (updateProbabilities mkEnvelopeEngine ["Scarlett", "Rope", "Kitchen"]
        none none).suspectProbs := by
  have hnn : NonnegEngine mkEnvelopeEngine := by
    refine ⟨fun c => ?_, fun c => ?_, fun c => ?_⟩ <;>
      norm_num [mkEnvelopeEngine, initCategoryProbs, SUSPECTS, WEAPONS, ROOMS]
  exact ⟨hnn, (c5_category_sums mkEnvelopeEngine ["Scarlett", "Rope", "Kitchen"]
    none none hnn).2.1.1⟩

/-! ## C6 -/

/-- Sums over the same keys with equal values agree. -/
theorem sumOver_congr {l : List String} {f g : String → ℚ}
    (h : ∀ c ∈ l, f c = g c) : sumOver l f = sumOver l g := by
  rw [sumOver, sumOver]
  exact congrArg List.sum (List.map_congr_left h)

/-- The per-card normalization phase preserves non-negativity. -/
theorem normalizeCards_nonneg (t : PlayerCardTracker) (hnn : NonnegProbs t) :
    NonnegProbs (normalizeCards t) := by
  intro q c
  dsimp only [normalizeCards]
  split_ifs with hcond
  · exact div_nonneg (hnn q c) (le_of_lt hcond.2.2)
  · exact hnn q c

/-- The pin loop preserves non-negativity. -/
theorem pinCard_nonneg (t : PlayerCardTracker) (holder card : String)
    (hnn : NonnegProbs t) : NonnegProbs (pinCard t holder card) := by
  intro q c
  dsimp only [pinCard]
  split_ifs
  · norm_num
  · norm_num
  · exact hnn q c

/-- Zeroing the passed players' entries preserves non-negativity. -/
theorem zeroPassed_nonneg (t : PlayerCardTracker) (passed suggested : List String)
    (hnn : NonnegProbs t) : NonnegProbs (zeroPassed t passed suggested) := by
  intro q c
  dsimp only [zeroPassed]
  split_ifs
  · norm_num
  · exact hnn q c

/-- The responder's multiplicative boost preserves non-negativity. -/
theorem boostResponder_nonneg (t : PlayerCardTracker) (responder : String)
    (suggested : List String) (hnn : NonnegProbs t) :
    NonnegProbs (boostResponder t responder suggested) := by
  intro q c
  dsimp only [boostResponder]
  split_ifs
  · exact mul_nonneg (hnn q c) (by positivity)
  · exact hnn q c

/-- Case 3's zeroing of unknown suggested cards preserves non-negativity. -/
theorem zeroAllUnknown_nonneg (t : PlayerCardTracker) (suggested : List String)
    (hnn : NonnegProbs t) : NonnegProbs (zeroAllUnknown t suggested) := by
  intro q c
  dsimp only [zeroAllUnknown]
  split_ifs
  · norm_num
  · exact hnn q c

/-- Capacity after `_normalize_probabilities`: for every player in the game,
the sum of their non-known entries is at most their hand size (exactly, in
the rational model). -/
theorem capacity_normalize (t : PlayerCardTracker) (p : String)
    (hnn : NonnegProbs t) (hh : 0 ≤ t.handSizes p) (hp : p ∈ t.players) :
    nonKnownRow (normalizeProbabilities t) p ≤ t.handSizes p := by
  have hnn1 : NonnegProbs (normalizeCards t) := normalizeCards_nonneg t hnn
  set t1 := normalizeCards t with ht1
  have hfilt : ∀ c ∈ t1.cards.filter (fun c => decide (c ∉ t1.knownCards p)),
      c ∈ t1.cards ∧ c ∉ t1.knownCards p := by
    intro c hc
    have := List.of_mem_filter hc
    exact ⟨List.mem_of_mem_filter hc, by simpa using this⟩
  by_cases hlt : t1.handSizes p < rowTotal t1 p
  · have hT : 0 < rowTotal t1 p := lt_of_le_of_lt hh hlt
    have hval : ∀ c ∈ t1.cards.filter (fun c => decide (c ∉ t1.knownCards p)),
        (normalizeHandSizes t1).playerCardProbs p c
          = t1.playerCardProbs p c * (t1.handSizes p / rowTotal t1 p) := by
      intro c hc
      obtain ⟨hc1, hc2⟩ := hfilt c hc
      dsimp only [normalizeHandSizes]
      rw [if_pos ⟨hp, hc1, hc2, hlt⟩]
    have hsum : nonKnownRow (normalizeHandSizes t1) p
        = sumOver (t1.cards.filter (fun c => decide (c ∉ t1.knownCards p)))
            (fun c => t1.playerCardProbs p c * (t1.handSizes p / rowTotal t1 p)) := by
      rw [nonKnownRow]
      exact sumOver_congr hval
    rw [nonKnownRow] at hsum ⊢
    rw [show normalizeProbabilities t = normalizeHandSizes t1 from rfl]
    rw [hsum]
    rw [sumOver, sum_map_mul_right]
    have hns : ((t1.cards.filter (fun c => decide (c ∉ t1.knownCards p))).map
        (t1.playerCardProbs p)).sum ≤ rowTotal t1 p :=
      sum_filter_le (fun c _ => hnn1 p c)
    have hk : 0 ≤ t1.handSizes p / rowTotal t1 p :=
      div_nonneg hh (le_of_lt hT)
    calc ((t1.cards.filter (fun c => decide (c ∉ t1.knownCards p))).map
            (t1.playerCardProbs p)).sum * (t1.handSizes p / rowTotal t1 p)
        ≤ rowTotal t1 p * (t1.handSizes p / rowTotal t1 p) :=
          mul_le_mul_of_nonneg_right hns hk
      _ = t1.handSizes p := by
          rw [mul_comm]
          exact div_mul_cancel₀ (t1.handSizes p) (ne_of_gt hT)
  · have hval : ∀ c ∈ t1.cards.filter (fun c => decide (c ∉ t1.knownCards p)),
        (normalizeHandSizes t1).playerCardProbs p c = t1.playerCardProbs p c := by
      intro c hc
      dsimp only [normalizeHandSizes]
      rw [if_neg]
      intro hcond
      exact hlt hcond.2.2.2
    have hsum : nonKnownRow (normalizeHandSizes t1) p
        = nonKnownRow t1 p := by
      rw [nonKnownRow, nonKnownRow]
      exact sumOver_congr hval
    rw [show normalizeProbabilities t = normalizeHandSizes t1 from rfl, hsum]
    have hns : nonKnownRow t1 p ≤ rowTotal t1 p := by
      rw [nonKnownRow, sumOver, rowTotal, sumOver]
      exact sum_filter_le (fun c _ => hnn1 p c)
    exact le_trans hns (not_lt.mp hlt)

/-- C6: after every `update_from_suggestion` and every `mark_known_card`,
each player's matrix row summed over their non-known cards is at most their
hand size (the rational model gives the exact inequality, hence certainly
within 1e-6), and the hand-size renormalization phase leaves known entries
untouched. -/
theorem c6_hand_size_capacity (t : PlayerCardTracker) (p : String)
    (hnn : NonnegProbs t) (hh : 0 ≤ t.handSizes p) (hp : p ∈ t.players)
    (suggested : List String) (sg : String) (r sh : Option String)
    (order : List String) (player card : String) :
    (∀ t', updateFromSuggestion t suggested sg r sh order = some t' →
      nonKnownRow t' p ≤ t.handSizes p) ∧
    nonKnownRow (markKnownCard t player card) p ≤ t.handSizes p ∧
    (∀ c ∈ t.knownCards p, (normalizeHandSizes t).playerCardProbs p c
      = t.playerCardProbs p c) := by
  refine ⟨?_, ?_, ?_⟩
  · intro t' h
    rw [updateFromSuggestion] at h
    split_ifs at h with h1 h2 h3
    · injection h with h'
      subst h'
      exact capacity_normalize (pinCard t (r.getD "") (sh.getD "")) p
        (pinCard_nonneg t _ _ hnn) hh hp
    · injection h with h'
      subst h'
      exact capacity_normalize _ p
        (boostResponder_nonneg _ _ _ (zeroPassed_nonneg t _ _ hnn)) hh hp
    · injection h with h'
      subst h'
      exact capacity_normalize (zeroAllUnknown t suggested) p
        (zeroAllUnknown_nonneg t _ hnn) hh hp
  · exact capacity_normalize (pinCard t player card) p
      (pinCard_nonneg t _ _ hnn) hh hp
  · intro c hc
    dsimp only [normalizeHandSizes]
    rw [if_neg]
    intro hcond
    exact hcond.2.2.1 hc

/-- C6 witness: the capacity bound evaluated on a fresh three-player game
after marking a known card. -/
theorem c6_hand_size_capacity_witness :
    (NonnegProbs (mkTracker ["You", "A", "B"] ALL_CARDS (fun _ => 3)) ∧
      (0 : ℚ) ≤ 3 ∧ "You" ∈ (mkTracker ["You", "A", "B"] ALL_CARDS (fun _ => 3)).players) ∧
    nonKnownRow (markKnownCard (mkTracker ["You", "A", "B"] ALL_CARDS (fun _ => 3))
      "A" "Scarlett") "You" ≤ 3 := by
  have hnn : NonnegProbs (mkTracker ["You", "A", "B"] ALL_CARDS (fun _ => 3)) := by
    intro q c
    norm_num [mkTracker]
  refine ⟨⟨hnn, by norm_num, by simp [mkTracker]⟩, ?_⟩
  exact (c6_hand_size_capacity (mkTracker ["You", "A", "B"] ALL_CARDS (fun _ => 3))
    "You" hnn (by norm_num [mkTracker]) (by simp [mkTracker]) [] "" none none []
    "A" "Scarlett").2.1

/-! ## C4 -/

/-- Membership in a `set.add` insertion. -/
theorem mem_insertS {x y : String} {l : List String} :
    y ∈ insertS x l ↔ y = x ∨ y ∈ l := by
  rw [insertS]
  split_ifs with h
  · exact ⟨fun hy => Or.inr hy, fun hy => hy.elim (fun he => he ▸ h) id⟩
  · simp [List.mem_cons]

/-- The per-card normalization preserves the absorbing invariant: a pinned
column sums to exactly 1, so dividing by the total changes nothing. -/
theorem absorbing_normalizeCards (t : PlayerCardTracker)
    (hnd : t.players.Nodup) (hA : Absorbing t) :
    Absorbing (normalizeCards t) := by
  intro p hp c hc
  obtain ⟨h1, h0⟩ := hA p hp c hc
  have hcol : colTotal t c = 1 := by
    rw [colTotal, sumOver, sum_eq_single hnd hp (fun q hq hne => h0 q hq hne)]
    exact h1
  constructor
  · dsimp only [normalizeCards]
    split_ifs with h
    · rw [h1, hcol]
      norm_num
    · exact h1
  · intro q hq hne
    dsimp only [normalizeCards]
    split_ifs with h
    · rw [h0 q hq hne]
      exact zero_div _
    · exact h0 q hq hne

/-- The hand-size scaling preserves the absorbing invariant: known entries
are exempt and zero entries stay zero. -/
theorem absorbing_normalizeHandSizes (t : PlayerCardTracker)
    (hA : Absorbing t) : Absorbing (normalizeHandSizes t) := by
  intro p hp c hc
  obtain ⟨h1, h0⟩ := hA p hp c hc
  constructor
  · dsimp only [normalizeHandSizes]
    rw [if_neg (fun hcond => hcond.2.2.1 hc)]
    exact h1
  · intro q hq hne
    dsimp only [normalizeHandSizes]
    split_ifs with h
    · rw [h0 q hq hne]
      exact zero_mul _
    · exact h0 q hq hne

/-- Pinning a card preserves the absorbing invariant, provided the card is
not already recorded as held by a different player. -/
theorem absorbing_pinCard (t : PlayerCardTracker) (holder card : String)
    (hA : Absorbing t)
    (hok : ∀ q ∈ t.players, q ≠ holder → card ∉ t.knownCards q) :
    Absorbing (pinCard t holder card) := by
  intro p hp c hc
  by_cases hcc : c = card
  · subst hcc
    by_cases hph : p = holder
    · subst hph
      constructor
      · dsimp only [pinCard]
        rw [if_pos ⟨hp, rfl⟩, if_pos rfl]
      · intro q hq hne
        dsimp only [pinCard]
        rw [if_pos ⟨hq, rfl⟩, if_neg hne]
    · exfalso
      have hc' : c ∈ t.knownCards p := by
        dsimp only [pinCard] at hc
        rwa [if_neg (fun hcond => hph hcond.2)] at hc
      exact hok p hp hph hc'
  · have hc' : c ∈ t.knownCards p := by
      dsimp only [pinCard] at hc
      split_ifs at hc with h
      · exact (mem_insertS.mp hc).elim (fun he => absurd he hcc) id
      · exact hc
    obtain ⟨h1, h0⟩ := hA p hp c hc'
    constructor
    · dsimp only [pinCard]
      rw [if_neg (fun hcond => hcc hcond.2)]
      exact h1
    · intro q hq hne
      dsimp only [pinCard]
      rw [if_neg (fun hcond => hcc hcond.2)]
      exact h0 q hq hne

/-- Zeroing the passed players preserves the absorbing invariant, provided
no passed player is recorded as holding a suggested card. -/
theorem absorbing_zeroPassed (t : PlayerCardTracker)
    (passed suggested : List String) (hA : Absorbing t)
    (hok : ∀ q ∈ passed, ∀ c ∈ suggested, c ∉ t.knownCards q) :
    Absorbing (zeroPassed t passed suggested) := by
  intro p hp c hc
  obtain ⟨h1, h0⟩ := hA p hp c hc
  constructor
  · dsimp only [zeroPassed]
    split_ifs with h
    · exact absurd hc (hok p h.1 c h.2)
    · exact h1
  · intro q hq hne
    dsimp only [zeroPassed]
    split_ifs with h
    · rfl
    · exact h0 q hq hne

/-- The responder's multiplicative boost preserves the absorbing invariant:
known cards are exempt and zero entries stay zero. -/
theorem absorbing_boostResponder (t : PlayerCardTracker)
    (responder : String) (suggested : List String) (hA : Absorbing t) :
    Absorbing (boostResponder t responder suggested) := by
  intro p hp c hc
  obtain ⟨h1, h0⟩ := hA p hp c hc
  constructor
  · dsimp only [boostResponder]
    split_ifs with h
    · exact absurd (h.1 ▸ hc) h.2
    · exact h1
  · intro q hq hne
    dsimp only [boostResponder]
    split_ifs with h
    · rw [h0 q hq hne]
      exact zero_mul _
    · exact h0 q hq hne

/-- Case 3's zeroing preserves the absorbing invariant: known entries are
guarded, other entries were already zero. -/
theorem absorbing_zeroAllUnknown (t : PlayerCardTracker)
    (suggested : List String) (hA : Absorbing t) :
    Absorbing (zeroAllUnknown t suggested) := by
  intro p hp c hc
  obtain ⟨h1, h0⟩ := hA p hp c hc
  constructor
  · dsimp only [zeroAllUnknown]
    split_ifs with h
    · exact absurd hc h.2.2
    · exact h1
  · intro q hq hne
    dsimp only [zeroAllUnknown]
    split_ifs with h
    · rfl
    · exact h0 q hq hne

/-- Tracker events do not change the player list. -/
theorem trackerStep_players (t : PlayerCardTracker) (e : TrackerEvent)
    (t' : PlayerCardTracker) (h : trackerStep t e = some t') :
    t'.players = t.players := by
  cases e with
  | mark player card =>
    rw [trackerStep] at h
    injection h with h'
    subst h'
    rfl
  | suggest sc sg r sh order =>
    rw [trackerStep, updateFromSuggestion] at h
    split_ifs at h <;> (injection h with h'; subst h'; rfl)

/-- One consistent tracker event preserves the absorbing invariant. -/
theorem absorbing_step (t : PlayerCardTracker) (e : TrackerEvent)
    (t' : PlayerCardTracker) (hnd : t.players.Nodup) (hA : Absorbing t)
    (hok : okEvent t e = true) (h : trackerStep t e = some t') :
    Absorbing t' := by
  cases e with
  | mark player card =>
    rw [trackerStep] at h
    injection h with h'
    subst h'
    have hok' : ∀ q ∈ t.players, q ≠ player → card ∉ t.knownCards q := by
      simp only [okEvent, List.all_eq_true, Bool.or_eq_true, beq_iff_eq,
        decide_eq_true_eq] at hok
      intro q hq hne
      rcases hok q hq with h' | h'
      · exact absurd h' hne
      · exact h'
    exact absorbing_normalizeHandSizes _
      (absorbing_normalizeCards _ hnd (absorbing_pinCard t player card hA hok'))
  | suggest sc sg r sh order =>
    simp only [okEvent, Bool.and_eq_true, beq_iff_eq] at hok
    obtain ⟨horder, hrest⟩ := hok
    rw [trackerStep, updateFromSuggestion] at h
    split_ifs at h with h1 h2 h3
    · injection h with h'
      subst h'
      have h1' : truthy r = true ∧ truthy sh = true := by
        rw [← Bool.and_eq_true]
        exact h1
      rw [if_pos h1'] at hrest
      simp only [List.all_eq_true, Bool.or_eq_true, beq_iff_eq,
        decide_eq_true_eq] at hrest
      have hok' : ∀ q ∈ t.players, q ≠ r.getD "" →
          sh.getD "" ∉ t.knownCards q := by
        intro q hq hne
        rcases hrest q hq with h' | h'
        · exact absurd h' hne
        · exact h'
      exact absorbing_normalizeHandSizes _
        (absorbing_normalizeCards _ hnd (absorbing_pinCard t _ _ hA hok'))
    · injection h with h'
      subst h'
      have h1' : ¬(truthy r = true ∧ truthy sh = true) := by
        rw [← Bool.and_eq_true]
        exact h1
      rw [if_neg h1', if_pos h2] at hrest
      simp only [List.all_eq_true, decide_eq_true_eq] at hrest
      have hok' : ∀ q ∈ passedPlayers order sg (r.getD ""),
          ∀ c ∈ sc, c ∉ t.knownCards q := by
        intro q hq c hc
        exact (hrest q hq) c hc
      exact absorbing_normalizeHandSizes _
        (absorbing_normalizeCards _ hnd
          (absorbing_boostResponder _ _ _
            (absorbing_zeroPassed t _ sc hA hok')))
    · injection h with h'
      subst h'
      exact absorbing_normalizeHandSizes _
        (absorbing_normalizeCards _ hnd (absorbing_zeroAllUnknown t sc hA))

/-- A consistent run of tracker events preserves the absorbing invariant. -/
theorem absorbing_run (evs : List TrackerEvent) :
    ∀ (t t' : PlayerCardTracker), t.players.Nodup → Absorbing t →
      consistentRun t evs = true → runTracker t evs = some t' →
      Absorbing t' := by
  induction evs with
  | nil =>
    intro t t' _ hA _ hrun
    rw [runTracker] at hrun
    injection hrun with h'
    subst h'
    exact hA
  | cons e evs ih =>
    intro t t' hnd hA hcons hrun
    rw [consistentRun] at hcons
    rw [runTracker] at hrun
    rcases hstep : trackerStep t e with _ | t1
    · rw [hstep] at hrun
      exact absurd hrun (by simp)
    · rw [hstep] at hrun hcons
      rw [Bool.and_eq_true] at hcons
      obtain ⟨hok, hrest⟩ := hcons
      have hA1 : Absorbing t1 := absorbing_step t e t1 hnd hA hok hstep
      have hnd1 : t1.players.Nodup := by
        rw [trackerStep_players t e t1 hstep]
        exact hnd
      exact ih t1 t' hnd1 hA1 hrest hrun

/-- C4 counterexample: the claim quantifies over *every* sequence of
`update_from_suggestion` and `mark_known_card` calls.  Mark Scarlett as held
by `A`, then record a suggestion in which `B` shows Scarlett: case 1
unconditionally reassigns the card, zeroing `A`'s entry while Scarlett is
still in `A`'s known set — the invariant `matrix[A][Scarlett] == 1.0` fails
in the reachable state. -/
theorem c4_absorbing_counterexample :
    (updateFromSuggestion
      (markKnownCard (mkTracker ["You", "A", "B"] ALL_CARDS (fun _ => 3))
        "A" "Scarlett")
      ["Scarlett", "Rope", "Kitchen"] "You" (some "B") (some "Scarlett")
      ["You", "A", "B"]).map
      (fun t => (t.playerCardProbs "A" "Scarlett",
                 decide ("Scarlett" ∈ t.knownCards "A")))
      = some (0, true) := by
  simp [updateFromSuggestion, truthy, mkTracker, ALL_CARDS, SUSPECTS, WEAPONS,
    ROOMS, markKnownCard, pinCard, normalizeProbabilities, normalizeCards,
    normalizeHandSizes, colTotal, rowTotal, sumOver, insertS]

/-- C4 amended: known cards are absorbing for every event sequence that
never contradicts recorded knowledge — no shown or marked card already known
to a different player, no passed player recorded as holding a suggested
card, and each call passing the tracker's own player list (as every call
site does).  Under that consistency condition, every reachable state pins
each known card's column to 1 for its holder and 0 for every other
player.  (The counterexample shows the condition is necessary: a
contradictory case-1 event silently re-pins the column.) -/
theorem c4_known_cards_absorbing (players cards : List String)
    (hs : String → ℚ) (evs : List TrackerEvent) (t' : PlayerCardTracker)
    (hnd : players.Nodup)
    (hcons : consistentRun (mkTracker players cards hs) evs = true)
    (hrun : runTracker (mkTracker players cards hs) evs = some t') :
    Absorbing t' :=
  absorbing_run evs (mkTracker players cards hs) t' hnd
    (fun _ _ c hc => absurd hc (List.not_mem_nil c)) hcons hrun

/-- C4 amended witness: marking one card on a fresh three-player game is a
consistent run, and the resulting state satisfies the absorbing invariant. -/
theorem c4_known_cards_absorbing_witness :
    (["You", "A", "B"].Nodup ∧
      consistentRun (mkTracker ["You", "A", "B"] ALL_CARDS (fun _ => 3))
        [TrackerEvent.mark "A" "Scarlett"] = true) ∧
    Absorbing (markKnownCard (mkTracker ["You", "A", "B"] ALL_CARDS (fun _ => 3))
      "A" "Scarlett") :=
  ⟨⟨by decide, by decide⟩,
    c4_known_cards_absorbing ["You", "A", "B"] ALL_CARDS (fun _ => 3)
      [TrackerEvent.mark "A" "Scarlett"] _ (by decide) (by decide) rfl⟩
